import Mathlib

/-!
Shallow embedding of `models/rfregressor_volatility/model.py` (and the parts of
`models/rfregressor_volatility/configs.py` it reads) from the
allora-model-maker repository.

A pandas Series is a list of cells; a missing cell (`NaN`) is `none`.  A
DataFrame is an association list from column names to columns; all columns of
a well-formed frame have the same length (`Rect`).  Numeric values are
modelled as rationals; the two transcendental functions the code uses
(`np.log`, and the square root inside `Series.std`) are passed in as explicit
function parameters `flog`, `fsqrt`, so every definition stays executable and
every theorem holds for any interpretation of those functions.
-/

abbrev Cell := Option ℚ

abbrev Col := List Cell

abbrev DFrame := List (String × Col)

/-- Cell of a column at row `t` (missing when out of range, matching the fact
that a pandas positional read past the end never occurs in this code). -/
def cellAt (c : Col) (t : Nat) : Cell := c.getD t none

/-- Column lookup, `df[name]`: the first entry with the given key. -/
def getCol : DFrame → String → Col
  | [], _ => []
  | p :: f, name => if p.1 = name then p.2 else getCol f name

/-- Whether the frame has a column of the given name. -/
def hasCol : DFrame → String → Bool
  | [], _ => false
  | p :: f, name => if p.1 = name then true else hasCol f name

/-- Column assignment, `df[name] = c`: overwrite an existing column or append
a new one at the end. -/
def setCol (f : DFrame) (name : String) (c : Col) : DFrame :=
  if hasCol f name then f.map (fun p => if p.1 = name then (name, c) else p)
  else f ++ [(name, c)]

/-- Apply one column transformation to every column of a frame (the shape of
`fillna`, `iloc` row slicing, and `dropna`). -/
def mapCols (g : Col → Col) (f : DFrame) : DFrame :=
  f.map (fun p => (p.1, g p.2))

/-- Number of rows of a frame (length of its first column). -/
def nRows (f : DFrame) : Nat :=
  match f with
  | [] => 0
  | p :: _ => p.2.length

/-- A frame is rectangular with `n` rows. -/
def Rect (f : DFrame) (n : Nat) : Prop := ∀ p ∈ f, p.2.length = n

/-- `Series.shift(k)` for `k ≥ 0`: the first `k` cells become missing, the
rest move down, the length is preserved. -/
def pshift (k : Nat) (xs : Col) : Col :=
  (List.replicate k none ++ xs).take xs.length

/-- `Series.shift(-k)`: cells move up by `k`, the last `k` become missing. -/
def pshiftNeg (k : Nat) (xs : Col) : Col :=
  (xs ++ List.replicate k none).drop k

/-- Forward fill, carrying the last non-missing cell. -/
def ffillGo : Cell → Col → Col
  | _, [] => []
  | last, none :: xs => last :: ffillGo last xs
  | _, some v :: xs => some v :: ffillGo (some v) xs

/-- `Series.fillna(method='ffill')`. -/
def ffillCol (xs : Col) : Col := ffillGo none xs

/-- `Series.fillna(method='bfill')`: forward fill on the reversed column. -/
def bfillCol (xs : Col) : Col := (ffillGo none xs.reverse).reverse

/-- `df.fillna(method='ffill').fillna(method='bfill')` (model.py line 41 and
line 85), applied to every column. -/
def fillCols (f : DFrame) : DFrame := mapCols (fun c => bfillCol (ffillCol c)) f

/-- Elementwise division of two series; missing propagates (`NaN` arithmetic). -/
def cellDiv : Cell → Cell → Cell
  | some a, some b => some (a / b)
  | _, _ => none

/-- `np.log(series / series.shift(1))` (model.py lines 25, 46, 90). -/
def logReturns (flog : ℚ → ℚ) (xs : Col) : Col :=
  (List.zipWith cellDiv xs (pshift 1 xs)).map (Option.map flog)

/-- `series.rolling(window=w).mean()`: with the default `min_periods = w`,
row `t` is defined only when a full window of `w` non-missing cells ends at
`t`. -/
def rollingMean (w : Nat) (xs : Col) : Col :=
  (List.range xs.length).map (fun t =>
    if t + 1 < w then none
    else
      let win := (xs.take (t + 1)).drop (t + 1 - w)
      if win.all Option.isSome then some ((win.filterMap id).sum / (w : ℚ))
      else none)

/-- State-passing loop of `series.ewm(span=·, adjust=False).mean()` with the
default `ignore_na=False`: the state is `(old weight, current average)`; a
missing cell emits the current average and decays the old weight. -/
def ewmGo (c : ℚ) : Option (ℚ × ℚ) → Col → Col
  | _, [] => []
  | none, none :: xs => none :: ewmGo c none xs
  | some (w, y), none :: xs => some y :: ewmGo c (some (w * (1 - c), y)) xs
  | none, some v :: xs => some v :: ewmGo c (some (1, v)) xs
  | some (w, y), some v :: xs =>
      let w2 := w * (1 - c)
      let y2 := (w2 * y + c * v) / (w2 + c)
      some y2 :: ewmGo c (some (1, y2)) xs

/-- `series.ewm(span=span, adjust=False).mean()` (model.py lines 56, 100). -/
def ewmMean (span : Nat) (xs : Col) : Col :=
  ewmGo (2 / (span + 1 : ℚ)) none xs

/-- Mean of a list of values. -/
def sampleMean (vs : List ℚ) : ℚ := vs.sum / (vs.length : ℚ)

/-- Sample standard deviation (`ddof = 1`) of a list of values, with the
square root abstracted as `fsqrt`. -/
def sampleStd (fsqrt : ℚ → ℚ) (vs : List ℚ) : ℚ :=
  fsqrt ((vs.map (fun v => (v - sampleMean vs) ^ 2)).sum / ((vs.length - 1 : Nat) : ℚ))

/-- `Series.std()`: skip missing cells; with `ddof = 1` the result is missing
when fewer than two non-missing cells remain. -/
def seriesStd (fsqrt : ℚ → ℚ) (cells : Col) : Cell :=
  let vs := cells.filterMap id
  if vs.length ≤ 1 then none else some (sampleStd fsqrt vs)

/-- The block loop of `_calculate_non_overlapping_volatility` (model.py lines
26-34): each complete block of `w` cells is filled with the standard
deviation of the log-returns in that block; the trailing partial block keeps
the all-missing initial value. -/
def volBlocks (fsqrt : ℚ → ℚ) (w : Nat) (lr : Col) : Col :=
  if _h : 0 < w ∧ w ≤ lr.length then
    List.replicate w (seriesStd fsqrt (lr.take w)) ++ volBlocks fsqrt w (lr.drop w)
  else
    List.replicate lr.length none
termination_by lr.length
decreasing_by
  simp only [List.length_drop]
  omega

/-- `_calculate_non_overlapping_volatility(series, window_points)` (model.py
lines 23-36). -/
def calculate_non_overlapping_volatility (flog fsqrt : ℚ → ℚ) (series : Col)
    (w : Nat) : Col :=
  volBlocks fsqrt w (logReturns flog series)

/-- Positional slicing `xs[::w]` (rows `0, w, 2w, ...`). -/
def everyNth (w : Nat) : Col → Col
  | [] => []
  | x :: xs => x :: everyNth w (xs.drop (w - 1))
termination_by xs => xs.length
decreasing_by
  simp only [List.length_drop, List.length_cons]
  omega

/-- `df.iloc[::w]` (model.py line 64). -/
def sampleEvery (w : Nat) (f : DFrame) : DFrame := mapCols (everyNth w) f

/-- Whether row `t` has no missing cell in any column. -/
def rowOk (f : DFrame) (t : Nat) : Bool :=
  f.all (fun p => (cellAt p.2 t).isSome)

/-- `df.dropna()` (model.py line 73): keep exactly the rows with no missing
cell in any column. -/
def dropna (f : DFrame) : DFrame :=
  let keep := (List.range (nRows f)).filter (fun t => rowOk f t)
  mapCols (fun c => keep.map (fun t => cellAt c t)) f

/-- Column selection `df[names]` (model.py lines 76, 107). -/
def selectCols (f : DFrame) (names : List String) : DFrame :=
  names.map (fun n => (n, getCol f n))

/-- `df.fillna(0)` (model.py line 107): every missing cell becomes `0`. -/
def fillnaZero (f : DFrame) : DFrame :=
  mapCols (fun c => c.map (fun x => some (x.getD 0))) f

/-- Rows of a frame as lists of cells, in column order. -/
def frameRows (f : DFrame) : List (List Cell) :=
  (List.range (nRows f)).map (fun t => f.map (fun p => cellAt p.2 t))

/-- The fields of `RfregressorConfig.__init__` (configs.py lines 9-33) that
the feature pipeline reads or that the claims mention.  The constructor takes
no arguments, so every configuration object carries these values. -/
structure RConfig where
  candle_interval : String
  volatility_window : String
  n_lags : Nat
  ma_window : Nat
  target_shift : Nat
  n_estimators : Nat
  random_state : Nat

/-- The reference configuration object `RfregressorConfig()`. -/
def RfregressorConfig : RConfig :=
  { candle_interval := "1min"
    volatility_window := "5min"
    n_lags := 5
    ma_window := 10
    target_shift := 5
    n_estimators := 10
    random_state := 42 }

/-- `int(pd.Timedelta('5min') / pd.Timedelta('1min'))` (model.py lines 43,
87): five one-minute candles per five-minute volatility window. -/
def window_points : Nat := 5

/-- Name of the `i`-th lagged log-return column, `f'log_return_t-{i}'`. -/
def lrLagName (i : Nat) : String := "log_return_t-" ++ toString i

/-- Name of the `i`-th lagged volume column, `f'volume_t-{i}'`. -/
def volLagName (i : Nat) : String := "volume_t-" ++ toString i

example : lrLagName 1 = "log_return_t-1" := rfl
example : volLagName 4 = "volume_t-4" := rfl
example : List.range' 1 4 = [1, 2, 3, 4] := rfl

/-- Body of the lag loop `for i in range(1, 5)` (model.py lines 47-53 and
91-97): add the `i`-th lagged log-return column, then the `i`-th lagged
volume column. -/
def lagStep (d : DFrame) (i : Nat) : DFrame :=
  let d1 := setCol d (lrLagName i) (pshift i (getCol d "log_returns"))
  setCol d1 (volLagName i) (pshift i (getCol d1 "volume"))

/-- Feature-name list built by the training path (model.py lines 44-60):
lag names in loop order, then the moving averages and the current
volatility. -/
def featureNames : List String :=
  ((List.range' 1 4).foldl (fun acc i => acc ++ [lrLagName i, volLagName i]) [])
    ++ ["SMA_10", "EMA_10", "current_volatility"]

/-- Feature-name list built by the inference path (model.py lines 88-105):
the same names with `close` appended last. -/
def inferenceFeatureNames : List String :=
  ((List.range' 1 4).foldl (fun acc i => acc ++ [lrLagName i, volLagName i]) [])
    ++ ["SMA_10", "EMA_10", "current_volatility", "close"]

/-- The inference-path feature frame (model.py lines 84-103): fill the input,
compute log-returns, the four lags, `SMA_10`, `EMA_10` and
`current_volatility`; no target column and no sampling. -/
def inferenceFrame (flog fsqrt : ℚ → ℚ) (df0 : DFrame) : DFrame :=
  let df1 := fillCols df0
  let df2 := setCol df1 "log_returns" (logReturns flog (getCol df1 "close"))
  let df3 := (List.range' 1 4).foldl lagStep df2
  let df4 := setCol df3 "SMA_10" (rollingMean 10 (getCol df3 "close"))
  let df5 := setCol df4 "EMA_10" (ewmMean 10 (getCol df4 "close"))
  setCol df5 "current_volatility"
    (calculate_non_overlapping_volatility flog fsqrt (getCol df5 "close") window_points)

/-- The training-path feature frame at full bar resolution (model.py lines
40-62): the same steps as the inference path, followed by the target
column `current_volatility.shift(-5)`. -/
def trainFullFrame (flog fsqrt : ℚ → ℚ) (df0 : DFrame) : DFrame :=
  let df1 := fillCols df0
  let df2 := setCol df1 "log_returns" (logReturns flog (getCol df1 "close"))
  let df3 := (List.range' 1 4).foldl lagStep df2
  let df4 := setCol df3 "SMA_10" (rollingMean 10 (getCol df3 "close"))
  let df5 := setCol df4 "EMA_10" (ewmMean 10 (getCol df4 "close"))
  let df6 := setCol df5 "current_volatility"
    (calculate_non_overlapping_volatility flog fsqrt (getCol df5 "close") window_points)
  setCol df6 "target_volatility" (pshiftNeg 5 (getCol df6 "current_volatility"))

/-- `_calculate_volatility_features(df)` (model.py lines 38-68): the full
frame downsampled to every `window_points`-th row, with the feature-name
list. -/
def calculate_volatility_features (flog fsqrt : ℚ → ℚ) (df0 : DFrame) :
    DFrame × List String :=
  (sampleEvery window_points (trainFullFrame flog fsqrt df0), featureNames)

/-- The `(features, target)` pair handed to `self.model.fit` by `train`
(model.py lines 70-79): sample, drop rows with any missing cell, append
`close` to the feature list, select. -/
def train_fit_data (flog fsqrt : ℚ → ℚ) (df0 : DFrame) : DFrame × Col :=
  let pr := calculate_volatility_features flog fsqrt df0
  let cleaned := dropna pr.1
  (selectCols cleaned (pr.2 ++ ["close"]), getCol cleaned "target_volatility")

/-- The frame handed to `self.model.predict` by `inference` (model.py line
107): select the feature columns and fill remaining missing cells with
zero. -/
def inferencePredictInput (flog fsqrt : ℚ → ℚ) (df0 : DFrame) : DFrame :=
  fillnaZero (selectCols (inferenceFrame flog fsqrt df0) inferenceFeatureNames)

/-- `inference(input_data)` (model.py lines 82-110): one prediction per row
of the predict input, where `P` is the opaque fitted estimator applied to
one feature row. -/
def inference (flog fsqrt : ℚ → ℚ) (P : List Cell → ℚ) (df0 : DFrame) :
    List ℚ :=
  (frameRows (inferencePredictInput flog fsqrt df0)).map P

/-- The mutable state of the estimator wrapper: the fitted regression
estimator, kept opaque as a per-row prediction function. -/
structure ModelState where
  predictRow : List Cell → ℚ

/-- `forecast(steps)` (model.py lines 112-114): `[0] * steps`, independent of
the wrapper state. -/
def forecast (_m : ModelState) (steps : Nat) : List ℚ :=
  List.replicate steps 0

/-!
A small heap model for the frame-mutation claims: a store is a list of
frames, a reference is an index.  `df.copy()`, `df.fillna(...)`, `.dropna()`
and `.iloc[...].copy()` allocate fresh frames; `df[name] = col` writes the
frame in place.  Each store-level definition follows its source lines
statement by statement.
-/

abbrev Store := List DFrame

/-- Dereference a frame. -/
def readF (s : Store) (r : Nat) : DFrame := s.getD r []

/-- Overwrite the frame a reference points to. -/
def writeF (s : Store) (r : Nat) (f : DFrame) : Store := s.set r f

/-- Allocate a fresh frame, returning its reference. -/
def allocF (s : Store) (f : DFrame) : Nat × Store := (s.length, s ++ [f])

/-- Store-level lag-loop body: two in-place column writes on the frame at
`r` (model.py lines 47-53 and 91-97). -/
def lagStepS (r : Nat) (st : Store) (i : Nat) : Store :=
  let st1 := writeF st r
    (setCol (readF st r) (lrLagName i) (pshift i (getCol (readF st r) "log_returns")))
  writeF st1 r
    (setCol (readF st1 r) (volLagName i) (pshift i (getCol (readF st1 r) "volume")))

/-- Store-level `_calculate_volatility_features` (model.py lines 38-68):
copy the argument frame, rebind to the filled frame, mutate it column by
column, then allocate the sampled copy and return its reference. -/
def calcFeaturesS (flog fsqrt : ℚ → ℚ) (s0 : Store) (inRef : Nat) :
    (Nat × List String) × Store :=
  let a1 := allocF s0 (readF s0 inRef)
  let s1 := a1.2
  let a2 := allocF s1 (fillCols (readF s1 a1.1))
  let r := a2.1
  let s2 := a2.2
  let s3 := writeF s2 r
    (setCol (readF s2 r) "log_returns" (logReturns flog (getCol (readF s2 r) "close")))
  let s4 := (List.range' 1 4).foldl (lagStepS r) s3
  let s5 := writeF s4 r
    (setCol (readF s4 r) "SMA_10" (rollingMean 10 (getCol (readF s4 r) "close")))
  let s6 := writeF s5 r
    (setCol (readF s5 r) "EMA_10" (ewmMean 10 (getCol (readF s5 r) "close")))
  let s7 := writeF s6 r
    (setCol (readF s6 r) "current_volatility"
      (calculate_non_overlapping_volatility flog fsqrt (getCol (readF s6 r) "close") window_points))
  let s8 := writeF s7 r
    (setCol (readF s7 r) "target_volatility" (pshiftNeg 5 (getCol (readF s7 r) "current_volatility")))
  let a3 := allocF s8 (sampleEvery window_points (readF s8 r))
  ((a3.1, featureNames), a3.2)

/-- Store-level `train` up to the `fit` call (model.py lines 70-79): run the
feature pipeline, allocate the `dropna` result, and read off the
`(features, target)` pair handed to the estimator. -/
def trainS (flog fsqrt : ℚ → ℚ) (s0 : Store) (inRef : Nat) :
    (DFrame × Col) × Store :=
  let c := calcFeaturesS flog fsqrt s0 inRef
  let a := allocF c.2 (dropna (readF c.2 c.1.1))
  ((selectCols (readF a.2 a.1) (c.1.2 ++ ["close"]),
    getCol (readF a.2 a.1) "target_volatility"), a.2)

/-- Store-level `inference` (model.py lines 82-110): copy the input, rebind
to the filled frame, mutate it column by column, allocate the selected and
zero-filled predict input, and apply the estimator row by row. -/
def inferenceS (flog fsqrt : ℚ → ℚ) (P : List Cell → ℚ) (s0 : Store)
    (inRef : Nat) : List ℚ × Store :=
  let a1 := allocF s0 (readF s0 inRef)
  let s1 := a1.2
  let a2 := allocF s1 (fillCols (readF s1 a1.1))
  let r := a2.1
  let s2 := a2.2
  let s3 := writeF s2 r
    (setCol (readF s2 r) "log_returns" (logReturns flog (getCol (readF s2 r) "close")))
  let s4 := (List.range' 1 4).foldl (lagStepS r) s3
  let s5 := writeF s4 r
    (setCol (readF s4 r) "SMA_10" (rollingMean 10 (getCol (readF s4 r) "close")))
  let s6 := writeF s5 r
    (setCol (readF s5 r) "EMA_10" (ewmMean 10 (getCol (readF s5 r) "close")))
  let s7 := writeF s6 r
    (setCol (readF s6 r) "current_volatility"
      (calculate_non_overlapping_volatility flog fsqrt (getCol (readF s6 r) "close") window_points))
  let a3 := allocF s7 (fillnaZero (selectCols (readF s7 r) inferenceFeatureNames))
  ((frameRows (readF a3.2 a3.1)).map P, a3.2)


/-- A small concrete bar table used to instantiate the theorems: ten bars
with close prices 1 to 10 and unit volume. -/
def wBars : DFrame :=
  [("close", [some 1, some 2, some 3, some 4, some 5, some 6, some 7, some 8,
     some 9, some 10]),
   ("volume", [some 1, some 1, some 1, some 1, some 1, some 1, some 1, some 1,
     some 1, some 1])]

/-- A concrete bar table with fewer rows than one volatility window. -/
def bars3 : DFrame :=
  [("close", [some 1, some 1, some 1]), ("volume", [some 2, some 2, some 2])]

/-! Helper lemmas about frames. -/

theorem getCol_cons (p : String × Col) (f : DFrame) (n : String) :
    getCol (p :: f) n = if p.1 = n then p.2 else getCol f n := rfl

theorem hasCol_cons (p : String × Col) (f : DFrame) (n : String) :
    hasCol (p :: f) n = if p.1 = n then true else hasCol f n := rfl

theorem hasCol_append (f g : DFrame) (n : String) :
    hasCol (f ++ g) n = (hasCol f n || hasCol g n) := by
  induction f with
  | nil => simp [hasCol]
  | cons p f ih =>
      rw [List.cons_append, hasCol_cons, hasCol_cons, ih]
      by_cases h : p.1 = n <;> simp [h]

theorem getCol_map_set (f : DFrame) (m n : String) (c : Col) :
    getCol (f.map (fun p => if p.1 = m then (m, c) else p)) n =
      if n = m ∧ hasCol f m = true then c else getCol f n := by
  induction f with
  | nil => simp [getCol, hasCol]
  | cons p f ih =>
      simp only [List.map_cons]
      by_cases hpm : p.1 = m <;> by_cases hnm : n = m
      · subst hnm
        rw [if_pos hpm, getCol_cons, ih, getCol_cons, hasCol_cons]
        simp [hpm]
      · have hmn : ¬(m = n) := fun h => hnm h.symm
        have hpn : ¬(p.1 = n) := by rw [hpm]; exact hmn
        rw [if_pos hpm, getCol_cons, ih, getCol_cons, hasCol_cons]
        simp [hpm, hnm, hmn, hpn]
      · subst hnm
        rw [if_neg hpm, getCol_cons, ih, getCol_cons, hasCol_cons]
        simp [hpm]
      · rw [if_neg hpm, getCol_cons, ih, getCol_cons, hasCol_cons]
        simp [hpm, hnm]

theorem getCol_append_single (f : DFrame) (m n : String) (c : Col) :
    getCol (f ++ [(m, c)]) n =
      if n = m then (if hasCol f n then getCol f n else c) else getCol f n := by
  induction f with
  | nil =>
      rw [List.nil_append, getCol_cons]
      by_cases hnm : n = m
      · subst hnm
        simp [hasCol, getCol]
      · rw [if_neg (show ¬(((m, c) : String × Col).1 = n) from fun h => hnm h.symm),
          if_neg hnm]
  | cons p f ih =>
      rw [List.cons_append, getCol_cons, ih, getCol_cons, hasCol_cons]
      by_cases hpn : p.1 = n <;> by_cases hnm : n = m
      · simp [hpn, hnm]
      · simp [hpn, hnm]
      · subst hnm
        simp [hpn]
      · simp [hpn, hnm]

theorem getCol_setCol (f : DFrame) (m n : String) (c : Col) :
    getCol (setCol f m c) n = if n = m then c else getCol f n := by
  unfold setCol
  by_cases h : hasCol f m = true
  · rw [if_pos h, getCol_map_set]
    by_cases hnm : n = m <;> simp [hnm, h]
  · rw [if_neg (by simp [h]), getCol_append_single]
    by_cases hnm : n = m
    · subst hnm
      simp [h]
    · simp [hnm]

theorem getCol_setCol_self (f : DFrame) (m : String) (c : Col) :
    getCol (setCol f m c) m = c := by
  simp [getCol_setCol]

theorem getCol_setCol_ne (f : DFrame) (m n : String) (c : Col) (h : n ≠ m) :
    getCol (setCol f m c) n = getCol f n := by
  simp [getCol_setCol, h]

theorem keys_map_set (f : DFrame) (m : String) (c : Col) :
    (f.map (fun p => if p.1 = m then (m, c) else p)).map Prod.fst =
      f.map Prod.fst := by
  induction f with
  | nil => rfl
  | cons p f ih =>
      simp only [List.map_cons]
      by_cases h : p.1 = m
      · rw [if_pos h, ih]
        simp [h]
      · rw [if_neg h, ih]

theorem hasCol_eq_keys (f : DFrame) (n : String) :
    hasCol f n = (f.map Prod.fst).any (fun k => k = n) := by
  induction f with
  | nil => rfl
  | cons p f ih =>
      rw [List.map_cons, List.any_cons, hasCol_cons, ih]
      by_cases h : p.1 = n <;> simp [h]

theorem hasCol_setCol (f : DFrame) (m n : String) (c : Col) :
    hasCol (setCol f m c) n = if n = m then true else hasCol f n := by
  unfold setCol
  by_cases h : hasCol f m = true
  · rw [if_pos h, hasCol_eq_keys, keys_map_set, ← hasCol_eq_keys]
    by_cases hnm : n = m
    · subst hnm
      simp [h]
    · simp [hnm]
  · rw [if_neg (by simp [h]), hasCol_append, hasCol_cons]
    by_cases hnm : n = m
    · subst hnm
      simp
    · rw [if_neg (show ¬(((m, c) : String × Col).1 = n) from fun h2 => hnm h2.symm),
        if_neg hnm]
      simp [hasCol]

theorem getCol_mapCols (g : Col → Col) (f : DFrame) (n : String)
    (h : hasCol f n = true) : getCol (mapCols g f) n = g (getCol f n) := by
  induction f with
  | nil => simp [hasCol] at h
  | cons p f ih =>
      rw [hasCol_cons] at h
      rw [mapCols, List.map_cons]
      rw [getCol_cons, getCol_cons]
      by_cases hpn : p.1 = n
      · simp [hpn]
      · rw [if_neg hpn, if_neg hpn]
        exact ih (by simpa [hpn] using h)

theorem hasCol_mapCols (g : Col → Col) (f : DFrame) (n : String) :
    hasCol (mapCols g f) n = hasCol f n := by
  induction f with
  | nil => rfl
  | cons p f ih =>
      rw [mapCols, List.map_cons] at *
      rw [hasCol_cons, hasCol_cons]
      by_cases hpn : p.1 = n
      · simp [hpn]
      · simp only [hpn, if_false]
        exact ih

theorem mem_getCol (f : DFrame) (n : String) (h : hasCol f n = true) :
    (n, getCol f n) ∈ f := by
  induction f with
  | nil => simp [hasCol] at h
  | cons p f ih =>
      obtain ⟨p1, p2⟩ := p
      rw [hasCol_cons] at h
      rw [getCol_cons]
      by_cases hpn : p1 = n
      · subst hpn
        rw [if_pos rfl]
        exact List.mem_cons_self _ _
      · rw [if_neg hpn]
        exact List.mem_cons_of_mem _ (ih (by simpa [hpn] using h))

theorem rowOk_isSome (f : DFrame) (t : Nat) (n : String)
    (hrow : rowOk f t = true) (h : hasCol f n = true) :
    (cellAt (getCol f n) t).isSome = true := by
  have hm := mem_getCol f n h
  have := List.all_eq_true.mp hrow _ hm
  simpa using this

theorem rowOk_false (f : DFrame) (t : Nat) (n : String) (h : hasCol f n = true)
    (hc : cellAt (getCol f n) t = none) : rowOk f t = false := by
  cases hr : rowOk f t with
  | false => rfl
  | true =>
      have := rowOk_isSome f t n hr h
      rw [hc] at this
      simp at this

theorem rect_setCol {f : DFrame} {n : Nat} (hf : Rect f n) {m : String}
    {c : Col} (hc : c.length = n) : Rect (setCol f m c) n := by
  intro p hp
  unfold setCol at hp
  by_cases h : hasCol f m = true
  · rw [if_pos h] at hp
    obtain ⟨q, hq, rfl⟩ := List.mem_map.mp hp
    by_cases hqm : q.1 = m
    · simp [hqm, hc]
    · simpa [hqm] using hf q hq
  · rw [if_neg (by simp [h])] at hp
    rcases List.mem_append.mp hp with h2 | h2
    · exact hf p h2
    · simp at h2
      simp [h2, hc]

theorem rect_mapCols {f : DFrame} {n : Nat} (hf : Rect f n) {g : Col → Col}
    {k : Nat} (hg : ∀ c : Col, c.length = n → (g c).length = k) :
    Rect (mapCols g f) k := by
  intro p hp
  obtain ⟨q, hq, rfl⟩ := List.mem_map.mp hp
  exact hg q.2 (hf q hq)

theorem nRows_rect {f : DFrame} {n : Nat} (hf : Rect f n) (hne : f ≠ []) :
    nRows f = n := by
  cases f with
  | nil => exact absurd rfl hne
  | cons p f => exact hf p (List.mem_cons_self p f)

theorem setCol_ne_nil (f : DFrame) (m : String) (c : Col) :
    setCol f m c ≠ [] := by
  unfold setCol
  by_cases h : hasCol f m = true
  · rw [if_pos h]
    cases f with
    | nil => simp [hasCol] at h
    | cons p f => simp
  · rw [if_neg (by simp [h])]
    simp

/-! Cell-level and length lemmas for the column operations. -/

theorem cellAt_cons_zero (x : Cell) (xs : Col) : cellAt (x :: xs) 0 = x := rfl

theorem cellAt_cons_succ (x : Cell) (xs : Col) (t : Nat) :
    cellAt (x :: xs) (t + 1) = cellAt xs t := rfl

theorem cellAt_nil (t : Nat) : cellAt [] t = none := rfl

theorem cellAt_drop (l : Col) (k t : Nat) :
    cellAt (l.drop k) t = cellAt l (k + t) := by
  simp [cellAt, List.getD_eq_getElem?_getD, List.getElem?_drop]

theorem length_pshift (k : Nat) (xs : Col) : (pshift k xs).length = xs.length := by
  simp [pshift]

theorem length_pshiftNeg (k : Nat) (xs : Col) :
    (pshiftNeg k xs).length = xs.length := by
  simp [pshiftNeg]

theorem cellAt_pshift (k : Nat) (xs : Col) (t : Nat) :
    cellAt (pshift k xs) t =
      if k ≤ t ∧ t < xs.length then cellAt xs (t - k) else none := by
  rw [cellAt, pshift, List.getD_eq_getElem?_getD, List.getElem?_take,
    List.getElem?_append, List.getElem?_replicate, List.length_replicate]
  rcases lt_or_ge t xs.length with ht | ht
  · rw [if_pos ht]
    rcases lt_or_ge t k with htk | htk
    · rw [if_pos htk, if_pos htk, if_neg (show ¬(k ≤ t ∧ t < xs.length) by omega)]
      rfl
    · rw [if_neg (show ¬(t < k) by omega),
        if_pos (show k ≤ t ∧ t < xs.length from ⟨htk, ht⟩)]
      simp [cellAt, List.getD_eq_getElem?_getD]
  · rw [if_neg (show ¬(t < xs.length) by omega),
      if_neg (show ¬(k ≤ t ∧ t < xs.length) by omega)]
    rfl

theorem cellAt_pshiftNeg (k : Nat) (xs : Col) (t : Nat) :
    cellAt (pshiftNeg k xs) t =
      if t + k < xs.length then cellAt xs (t + k) else none := by
  rw [cellAt, pshiftNeg, List.getD_eq_getElem?_getD, List.getElem?_drop,
    List.getElem?_append, List.getElem?_replicate]
  rcases lt_or_ge (t + k) xs.length with ht | ht
  · rw [if_pos (show k + t < xs.length by omega), if_pos ht,
      show k + t = t + k by omega]
    simp [cellAt, List.getD_eq_getElem?_getD]
  · rw [if_neg (show ¬(k + t < xs.length) by omega), if_neg (show ¬(t + k < xs.length) by omega)]
    rcases lt_or_ge (k + t - xs.length) k with hr | hr
    · rw [if_pos hr]
      rfl
    · rw [if_neg (show ¬(k + t - xs.length < k) by omega)]
      rfl

theorem length_logReturns (flog : ℚ → ℚ) (xs : Col) :
    (logReturns flog xs).length = xs.length := by
  simp [logReturns, length_pshift]

theorem length_rollingMean (w : Nat) (xs : Col) :
    (rollingMean w xs).length = xs.length := by
  simp [rollingMean]

theorem length_ewmGo (c : ℚ) (st : Option (ℚ × ℚ)) (xs : Col) :
    (ewmGo c st xs).length = xs.length := by
  induction xs generalizing st with
  | nil =>
      cases st with
      | none => rfl
      | some p =>
          obtain ⟨a, b⟩ := p
          rfl
  | cons x xs ih =>
      cases st with
      | none => cases x <;> simp [ewmGo, ih]
      | some p =>
          obtain ⟨a, b⟩ := p
          cases x <;> simp [ewmGo, ih]

theorem length_ewmMean (sp : Nat) (xs : Col) :
    (ewmMean sp xs).length = xs.length := length_ewmGo _ _ _

theorem length_ffillGo (st : Cell) (xs : Col) :
    (ffillGo st xs).length = xs.length := by
  induction xs generalizing st with
  | nil => rfl
  | cons x xs ih => cases x <;> simp [ffillGo, ih]

theorem length_ffillCol (xs : Col) : (ffillCol xs).length = xs.length := by
  simp [ffillCol, length_ffillGo]

theorem length_bfillCol (xs : Col) : (bfillCol xs).length = xs.length := by
  simp [bfillCol, length_ffillGo]

theorem length_volBlocks (fsqrt : ℚ → ℚ) (w : Nat) (lr : Col) :
    (volBlocks fsqrt w lr).length = lr.length := by
  rw [volBlocks]
  split
  next h =>
    rw [List.length_append, List.length_replicate,
      length_volBlocks fsqrt w (lr.drop w), List.length_drop]
    omega
  next h => rw [List.length_replicate]
termination_by lr.length
decreasing_by
  simp only [List.length_drop]
  omega

theorem length_vol (flog fsqrt : ℚ → ℚ) (series : Col) (w : Nat) :
    (calculate_non_overlapping_volatility flog fsqrt series w).length =
      series.length := by
  rw [calculate_non_overlapping_volatility, length_volBlocks, length_logReturns]

theorem length_everyNth (w : Nat) (hw : 0 < w) :
    ∀ xs : Col, (everyNth w xs).length = (xs.length + w - 1) / w
  | [] => by
      rw [everyNth]
      simp only [List.length_nil]
      rw [show 0 + w - 1 = w - 1 by omega, Nat.div_eq_of_lt (by omega)]
  | x :: xs => by
      rw [everyNth, List.length_cons, length_everyNth w hw (xs.drop (w - 1)),
        List.length_drop, List.length_cons]
      have h1 : xs.length + 1 + w - 1 = xs.length + w := by omega
      rw [h1, Nat.add_div_right _ hw]
      by_cases h2 : w - 1 ≤ xs.length
      · have h3 : xs.length - (w - 1) + w - 1 = xs.length := by omega
        rw [h3]
      · have h3 : xs.length - (w - 1) = 0 := by omega
        rw [h3, show 0 + w - 1 = w - 1 by omega, Nat.div_eq_of_lt (by omega),
          Nat.div_eq_of_lt (by omega)]
termination_by xs => xs.length
decreasing_by
  simp only [List.length_drop, List.length_cons]
  omega

theorem cellAt_everyNth (w : Nat) (hw : 0 < w) :
    ∀ (xs : Col) (j : Nat), cellAt (everyNth w xs) j = cellAt xs (j * w)
  | [], j => by
      rw [everyNth]
      rfl
  | x :: xs, 0 => by
      rw [everyNth, Nat.zero_mul]
      rfl
  | x :: xs, j + 1 => by
      rw [everyNth, cellAt_cons_succ, cellAt_everyNth w hw (xs.drop (w - 1)) j,
        cellAt_drop,
        show (j + 1) * w = (w - 1 + j * w) + 1 from by
          have h := Nat.add_mul j 1 w
          omega,
        cellAt_cons_succ]
termination_by xs _ => xs.length
decreasing_by
  simp only [List.length_drop, List.length_cons]
  omega

theorem cellAt_logReturns_zero (flog : ℚ → ℚ) (xs : Col) (h : xs ≠ []) :
    cellAt (logReturns flog xs) 0 = none := by
  cases xs with
  | nil => exact absurd rfl h
  | cons x xs =>
      cases x <;>
        simp [logReturns, pshift, cellDiv, cellAt, List.replicate_succ]

/-! Characterization of the feature-frame columns. -/

theorem lrLagName_one : lrLagName 1 = "log_return_t-1" := rfl

theorem lrLagName_two : lrLagName 2 = "log_return_t-2" := rfl

theorem lrLagName_three : lrLagName 3 = "log_return_t-3" := rfl

theorem lrLagName_four : lrLagName 4 = "log_return_t-4" := rfl

theorem volLagName_one : volLagName 1 = "volume_t-1" := rfl

theorem volLagName_two : volLagName 2 = "volume_t-2" := rfl

theorem volLagName_three : volLagName 3 = "volume_t-3" := rfl

theorem volLagName_four : volLagName 4 = "volume_t-4" := rfl

theorem foldl_lagStep (d : DFrame) :
    (List.range' 1 4).foldl lagStep d =
      lagStep (lagStep (lagStep (lagStep d 1) 2) 3) 4 := rfl

theorem hasCol_fillCols (f : DFrame) (m : String) :
    hasCol (fillCols f) m = hasCol f m := hasCol_mapCols _ f m

theorem getCol_fillCols (f : DFrame) (m : String) (h : hasCol f m = true) :
    getCol (fillCols f) m = bfillCol (ffillCol (getCol f m)) := getCol_mapCols _ f m h

theorem length_getCol_rect {f : DFrame} {n : Nat} (hf : Rect f n) {m : String}
    (h : hasCol f m = true) : (getCol f m).length = n := by
  have hm := mem_getCol f m h
  simpa using hf _ hm

theorem getCol_inf_close (flog fsqrt : ℚ → ℚ) (df0 : DFrame) :
    getCol (inferenceFrame flog fsqrt df0) "close" =
      getCol (fillCols df0) "close" := by
  simp [inferenceFrame, foldl_lagStep, lagStep, getCol_setCol, lrLagName_one,
    lrLagName_two, lrLagName_three, lrLagName_four, volLagName_one,
    volLagName_two, volLagName_three, volLagName_four]

theorem getCol_inf_volume (flog fsqrt : ℚ → ℚ) (df0 : DFrame) :
    getCol (inferenceFrame flog fsqrt df0) "volume" =
      getCol (fillCols df0) "volume" := by
  simp [inferenceFrame, foldl_lagStep, lagStep, getCol_setCol, lrLagName_one,
    lrLagName_two, lrLagName_three, lrLagName_four, volLagName_one,
    volLagName_two, volLagName_three, volLagName_four]

theorem getCol_inf_log_returns (flog fsqrt : ℚ → ℚ) (df0 : DFrame) :
    getCol (inferenceFrame flog fsqrt df0) "log_returns" =
      logReturns flog (getCol (fillCols df0) "close") := by
  simp [inferenceFrame, foldl_lagStep, lagStep, getCol_setCol, lrLagName_one,
    lrLagName_two, lrLagName_three, lrLagName_four, volLagName_one,
    volLagName_two, volLagName_three, volLagName_four]

theorem getCol_inf_SMA (flog fsqrt : ℚ → ℚ) (df0 : DFrame) :
    getCol (inferenceFrame flog fsqrt df0) "SMA_10" =
      rollingMean 10 (getCol (fillCols df0) "close") := by
  simp [inferenceFrame, foldl_lagStep, lagStep, getCol_setCol, lrLagName_one,
    lrLagName_two, lrLagName_three, lrLagName_four, volLagName_one,
    volLagName_two, volLagName_three, volLagName_four]

theorem getCol_inf_EMA (flog fsqrt : ℚ → ℚ) (df0 : DFrame) :
    getCol (inferenceFrame flog fsqrt df0) "EMA_10" =
      ewmMean 10 (getCol (fillCols df0) "close") := by
  simp [inferenceFrame, foldl_lagStep, lagStep, getCol_setCol, lrLagName_one,
    lrLagName_two, lrLagName_three, lrLagName_four, volLagName_one,
    volLagName_two, volLagName_three, volLagName_four]

theorem getCol_inf_curvol (flog fsqrt : ℚ → ℚ) (df0 : DFrame) :
    getCol (inferenceFrame flog fsqrt df0) "current_volatility" =
      calculate_non_overlapping_volatility flog fsqrt
        (getCol (fillCols df0) "close") window_points := by
  simp [inferenceFrame, foldl_lagStep, lagStep, getCol_setCol, lrLagName_one,
    lrLagName_two, lrLagName_three, lrLagName_four, volLagName_one,
    volLagName_two, volLagName_three, volLagName_four]

theorem getCol_inf_lrLag (flog fsqrt : ℚ → ℚ) (df0 : DFrame) (i : Nat)
    (h1 : 1 ≤ i) (h2 : i ≤ 4) :
    getCol (inferenceFrame flog fsqrt df0) (lrLagName i) =
      pshift i (logReturns flog (getCol (fillCols df0) "close")) := by
  interval_cases i <;>
    simp [inferenceFrame, foldl_lagStep, lagStep, getCol_setCol, lrLagName_one,
      lrLagName_two, lrLagName_three, lrLagName_four, volLagName_one,
      volLagName_two, volLagName_three, volLagName_four]

theorem getCol_inf_volLag (flog fsqrt : ℚ → ℚ) (df0 : DFrame) (i : Nat)
    (h1 : 1 ≤ i) (h2 : i ≤ 4) :
    getCol (inferenceFrame flog fsqrt df0) (volLagName i) =
      pshift i (getCol (fillCols df0) "volume") := by
  interval_cases i <;>
    simp [inferenceFrame, foldl_lagStep, lagStep, getCol_setCol, lrLagName_one,
      lrLagName_two, lrLagName_three, lrLagName_four, volLagName_one,
      volLagName_two, volLagName_three, volLagName_four]

theorem trainFullFrame_eq (flog fsqrt : ℚ → ℚ) (df0 : DFrame) :
    trainFullFrame flog fsqrt df0 =
      setCol (inferenceFrame flog fsqrt df0) "target_volatility"
        (pshiftNeg 5 (getCol (inferenceFrame flog fsqrt df0) "current_volatility")) :=
  rfl

theorem getCol_train_target (flog fsqrt : ℚ → ℚ) (df0 : DFrame) :
    getCol (trainFullFrame flog fsqrt df0) "target_volatility" =
      pshiftNeg 5 (getCol (trainFullFrame flog fsqrt df0) "current_volatility") := by
  rw [trainFullFrame_eq, getCol_setCol_self,
    getCol_setCol_ne _ _ _ _ (by decide)]

theorem getCol_train_of_ne (flog fsqrt : ℚ → ℚ) (df0 : DFrame) (m : String)
    (h : m ≠ "target_volatility") :
    getCol (trainFullFrame flog fsqrt df0) m =
      getCol (inferenceFrame flog fsqrt df0) m := by
  rw [trainFullFrame_eq, getCol_setCol_ne _ _ _ _ h]

theorem hasCol_lagStep_any {d : DFrame} (i : Nat) (m : String)
    (h : hasCol d m = true) : hasCol (lagStep d i) m = true := by
  simp only [lagStep, hasCol_setCol]
  split_ifs <;> simp [h]

theorem hasCol_lagFold_any {d : DFrame} (m : String) (h : hasCol d m = true) :
    hasCol ((List.range' 1 4).foldl lagStep d) m = true := by
  rw [foldl_lagStep]
  exact hasCol_lagStep_any 4 m (hasCol_lagStep_any 3 m
    (hasCol_lagStep_any 2 m (hasCol_lagStep_any 1 m h)))

theorem hasCol_inf_of (flog fsqrt : ℚ → ℚ) (df0 : DFrame) (m : String)
    (h : hasCol df0 m = true) :
    hasCol (inferenceFrame flog fsqrt df0) m = true := by
  simp only [inferenceFrame, hasCol_setCol]
  split_ifs <;>
    simp [hasCol_lagFold_any, hasCol_setCol, hasCol_fillCols, h]

theorem hasCol_inf_log_returns (flog fsqrt : ℚ → ℚ) (df0 : DFrame) :
    hasCol (inferenceFrame flog fsqrt df0) "log_returns" = true := by
  simp only [inferenceFrame, hasCol_setCol]
  split_ifs <;> try rfl
  apply hasCol_lagFold_any
  rw [hasCol_setCol]
  simp

theorem hasCol_inf_curvol (flog fsqrt : ℚ → ℚ) (df0 : DFrame) :
    hasCol (inferenceFrame flog fsqrt df0) "current_volatility" = true := by
  simp only [inferenceFrame, hasCol_setCol]
  simp

theorem rect_fillCols {df0 : DFrame} {n : Nat} (hr : Rect df0 n) :
    Rect (fillCols df0) n :=
  rect_mapCols hr (fun c hc => by rw [length_bfillCol, length_ffillCol, hc])

theorem rect_lagStep {d : DFrame} {n : Nat} (i : Nat) (hd : Rect d n)
    (hlr : hasCol d "log_returns" = true) (hv : hasCol d "volume" = true) :
    Rect (lagStep d i) n ∧ hasCol (lagStep d i) "log_returns" = true ∧
      hasCol (lagStep d i) "volume" = true := by
  simp only [lagStep]
  have hd1 : Rect (setCol d (lrLagName i) (pshift i (getCol d "log_returns"))) n :=
    rect_setCol hd (by rw [length_pshift]; exact length_getCol_rect hd hlr)
  have hv1 : hasCol (setCol d (lrLagName i) (pshift i (getCol d "log_returns")))
      "volume" = true := by
    rw [hasCol_setCol]
    split_ifs <;> simp [hv]
  have hlr1 : hasCol (setCol d (lrLagName i) (pshift i (getCol d "log_returns")))
      "log_returns" = true := by
    rw [hasCol_setCol]
    split_ifs <;> simp [hlr]
  refine ⟨rect_setCol hd1 (by rw [length_pshift]; exact length_getCol_rect hd1 hv1),
    ?_, ?_⟩
  · rw [hasCol_setCol]
    split_ifs <;> simp [hlr1]
  · rw [hasCol_setCol]
    split_ifs <;> simp [hv1]

theorem rect_lagFold {d : DFrame} {n : Nat} (hd : Rect d n)
    (hlr : hasCol d "log_returns" = true) (hv : hasCol d "volume" = true) :
    Rect ((List.range' 1 4).foldl lagStep d) n := by
  rw [foldl_lagStep]
  obtain ⟨h1, h2, h3⟩ := rect_lagStep 1 hd hlr hv
  obtain ⟨h4, h5, h6⟩ := rect_lagStep 2 h1 h2 h3
  obtain ⟨h7, h8, h9⟩ := rect_lagStep 3 h4 h5 h6
  exact (rect_lagStep 4 h7 h8 h9).1

theorem rect_inferenceFrame (flog fsqrt : ℚ → ℚ) {df0 : DFrame} {n : Nat}
    (hr : Rect df0 n) (hc : hasCol df0 "close" = true)
    (hv : hasCol df0 "volume" = true) :
    Rect (inferenceFrame flog fsqrt df0) n := by
  simp only [inferenceFrame]
  set df1 := fillCols df0 with hdf1
  set df2 := setCol df1 "log_returns" (logReturns flog (getCol df1 "close"))
    with hdf2
  set df3 := (List.range' 1 4).foldl lagStep df2 with hdf3
  set df4 := setCol df3 "SMA_10" (rollingMean 10 (getCol df3 "close")) with hdf4
  set df5 := setCol df4 "EMA_10" (ewmMean 10 (getCol df4 "close")) with hdf5
  have hr1 : Rect df1 n := rect_fillCols hr
  have hc1 : hasCol df1 "close" = true := by
    rw [hdf1, hasCol_fillCols]
    exact hc
  have hv1 : hasCol df1 "volume" = true := by
    rw [hdf1, hasCol_fillCols]
    exact hv
  have hr2 : Rect df2 n :=
    rect_setCol hr1 (by rw [length_logReturns]; exact length_getCol_rect hr1 hc1)
  have hlr2 : hasCol df2 "log_returns" = true := by
    rw [hdf2, hasCol_setCol]
    simp
  have hv2 : hasCol df2 "volume" = true := by
    rw [hdf2, hasCol_setCol]
    simp [hv1]
  have hc2 : hasCol df2 "close" = true := by
    rw [hdf2, hasCol_setCol]
    simp [hc1]
  have hr3 : Rect df3 n := by
    rw [hdf3]
    exact rect_lagFold hr2 hlr2 hv2
  have hc3 : hasCol df3 "close" = true := by
    rw [hdf3]
    exact hasCol_lagFold_any _ hc2
  have hr4 : Rect df4 n :=
    rect_setCol hr3 (by rw [length_rollingMean]; exact length_getCol_rect hr3 hc3)
  have hc4 : hasCol df4 "close" = true := by
    rw [hdf4, hasCol_setCol]
    simp [hc3]
  have hr5 : Rect df5 n :=
    rect_setCol hr4 (by rw [length_ewmMean]; exact length_getCol_rect hr4 hc4)
  have hc5 : hasCol df5 "close" = true := by
    rw [hdf5, hasCol_setCol]
    simp [hc4]
  exact rect_setCol hr5 (by rw [length_vol]; exact length_getCol_rect hr5 hc5)

theorem rect_trainFullFrame (flog fsqrt : ℚ → ℚ) {df0 : DFrame} {n : Nat}
    (hr : Rect df0 n) (hc : hasCol df0 "close" = true)
    (hv : hasCol df0 "volume" = true) :
    Rect (trainFullFrame flog fsqrt df0) n := by
  rw [trainFullFrame_eq]
  have hri := rect_inferenceFrame flog fsqrt hr hc hv
  exact rect_setCol hri (by
    rw [length_pshiftNeg]
    exact length_getCol_rect hri (hasCol_inf_curvol flog fsqrt df0))

theorem inferenceFrame_ne_nil (flog fsqrt : ℚ → ℚ) (df0 : DFrame) :
    inferenceFrame flog fsqrt df0 ≠ [] := by
  simp only [inferenceFrame]
  exact setCol_ne_nil _ _ _

theorem trainFullFrame_ne_nil (flog fsqrt : ℚ → ℚ) (df0 : DFrame) :
    trainFullFrame flog fsqrt df0 ≠ [] := by
  rw [trainFullFrame_eq]
  exact setCol_ne_nil _ _ _

/-! Block structure of the volatility computation. -/

theorem cellAt_volBlocks (fsqrt : ℚ → ℚ) (w : Nat) (hw : 0 < w) :
    ∀ (lr : Col) (b t : Nat), b * w ≤ t → t < (b + 1) * w → t < lr.length →
      cellAt (volBlocks fsqrt w lr) t =
        if (b + 1) * w ≤ lr.length
        then seriesStd fsqrt ((lr.drop (b * w)).take w)
        else none
  | lr, 0, t => fun _hbt htb ht => by
      have h01 : (0 + 1) * w = w := by omega
      rw [volBlocks, h01, Nat.zero_mul, List.drop_zero]
      rw [h01] at htb
      by_cases h : w ≤ lr.length
      · rw [dif_pos ⟨hw, h⟩, if_pos h, cellAt, List.getD_eq_getElem?_getD,
          List.getElem?_append, List.length_replicate, if_pos htb,
          List.getElem?_replicate, if_pos htb]
        rfl
      · rw [dif_neg (fun hh => h hh.2), if_neg h, cellAt,
          List.getD_eq_getElem?_getD, List.getElem?_replicate, if_pos ht]
        rfl
  | lr, b + 1, t => fun hbt htb ht => by
      have hs1 : (b + 1) * w = b * w + w := Nat.succ_mul b w
      have hs2 : (b + 1 + 1) * w = (b + 1) * w + w := Nat.succ_mul (b + 1) w
      have hwlen : w ≤ lr.length := by omega
      rw [volBlocks, dif_pos ⟨hw, hwlen⟩, cellAt, List.getD_eq_getElem?_getD,
        List.getElem?_append, List.length_replicate,
        if_neg (show ¬(t < w) by omega)]
      have hrec := cellAt_volBlocks fsqrt w hw (lr.drop w) b (t - w)
        (by omega) (by omega) (by rw [List.length_drop]; omega)
      rw [cellAt, List.getD_eq_getElem?_getD, List.length_drop, List.drop_drop]
        at hrec
      rw [hrec]
      rw [show w + b * w = (b + 1) * w by omega]
      by_cases hcc : (b + 1 + 1) * w ≤ lr.length
      · rw [if_pos hcc, if_pos (by omega)]
      · rw [if_neg hcc, if_neg (by omega)]

/-! Support lemmas for sampling, dropping and selection. -/

theorem getCol_dropna (f : DFrame) (m : String) (h : hasCol f m = true) :
    getCol (dropna f) m =
      ((List.range (nRows f)).filter (fun t => rowOk f t)).map
        (fun t => cellAt (getCol f m) t) := by
  simp only [dropna]
  rw [getCol_mapCols _ _ _ h]

theorem isSome_dropna (f : DFrame) (m : String) (h : hasCol f m = true) :
    ∀ x ∈ getCol (dropna f) m, x.isSome = true := by
  rw [getCol_dropna f m h]
  intro x hx
  obtain ⟨t, ht, rfl⟩ := List.mem_map.mp hx
  exact rowOk_isSome f t m (List.mem_filter.mp ht).2 h

theorem mapCols_ne_nil (g : Col → Col) {f : DFrame} (h : f ≠ []) :
    mapCols g f ≠ [] := by
  cases f with
  | nil => exact absurd rfl h
  | cons p f => simp [mapCols]

theorem nRows_fillnaZero (f : DFrame) : nRows (fillnaZero f) = nRows f := by
  cases f <;> simp [fillnaZero, mapCols, nRows]

theorem nRows_selectCols (f : DFrame) (m : String) (rest : List String) :
    nRows (selectCols f (m :: rest)) = (getCol f m).length := rfl

theorem length_frameRows (f : DFrame) : (frameRows f).length = nRows f := by
  simp [frameRows]

theorem hasCol_selectCols (f : DFrame) (names : List String) (m : String) :
    hasCol (selectCols f names) m = names.contains m := by
  induction names with
  | nil => rfl
  | cons q names ih =>
      rw [selectCols, List.map_cons, hasCol_cons]
      by_cases h : q = m
      · simp [h]
      · simp only [h, if_false]
        rw [show List.map (fun n => (n, getCol f n)) names = selectCols f names
          from rfl, ih]
        simp [List.contains_cons, h, fun h2 : m = q => h h2.symm]
        intro h2
        exact absurd h2.symm h

theorem cellAt_fillZero (c : Col) (t : Nat) :
    cellAt (c.map (fun x => some (x.getD 0))) t =
      if t < c.length then some ((cellAt c t).getD 0) else none := by
  rcases lt_or_ge t c.length with ht | ht
  · rw [if_pos ht]
    simp [cellAt, List.getD_eq_getElem?_getD, List.getElem?_map,
      List.getElem?_eq_getElem ht]
  · rw [if_neg (by omega)]
    simp [cellAt, List.getD_eq_getElem?_getD, List.getElem?_map,
      List.getElem?_eq_none (by simpa using ht)]

theorem featureNames_eq :
    featureNames = ["log_return_t-1", "volume_t-1", "log_return_t-2",
      "volume_t-2", "log_return_t-3", "volume_t-3", "log_return_t-4",
      "volume_t-4", "SMA_10", "EMA_10", "current_volatility"] := rfl

theorem inferenceFeatureNames_eq :
    inferenceFeatureNames = ["log_return_t-1", "volume_t-1", "log_return_t-2",
      "volume_t-2", "log_return_t-3", "volume_t-3", "log_return_t-4",
      "volume_t-4", "SMA_10", "EMA_10", "current_volatility", "close"] := rfl

theorem length_close_fill {df0 : DFrame} {n : Nat} (hr : Rect df0 n)
    (hc : hasCol df0 "close" = true) :
    (getCol (fillCols df0) "close").length = n := by
  rw [getCol_fillCols _ _ hc, length_bfillCol, length_ffillCol]
  exact length_getCol_rect hr hc

theorem hasCol_train_target (flog fsqrt : ℚ → ℚ) (df0 : DFrame) :
    hasCol (trainFullFrame flog fsqrt df0) "target_volatility" = true := by
  rw [trainFullFrame_eq, hasCol_setCol]
  simp

theorem lrLagName_five : lrLagName 5 = "log_return_t-5" := rfl

theorem volLagName_five : volLagName 5 = "volume_t-5" := rfl

theorem getCol_selectCols (f : DFrame) (names : List String) (m : String)
    (h : m ∈ names) : getCol (selectCols f names) m = getCol f m := by
  induction names with
  | nil => simp at h
  | cons q names ih =>
      rw [selectCols, List.map_cons, getCol_cons]
      by_cases hq : q = m
      · rw [if_pos hq, hq]
      · rw [if_neg hq,
          show List.map (fun n => (n, getCol f n)) names = selectCols f names
            from rfl]
        refine ih ?_
        rcases List.mem_cons.mp h with h2 | h2
        · exact absurd h2.symm hq
        · exact h2

/-! Claim theorems. -/

/-- C7: `forecast(steps)` returns exactly `steps` zero values for every
wrapper state (untrained, trained or retrained), is independent of the
fitted estimator, and in particular `forecast(3) = [0, 0, 0]`. -/
theorem C7_forecast_zeros (m m2 : ModelState) (steps : Nat) :
    forecast m steps = List.replicate steps 0 ∧
    forecast m steps = forecast m2 steps ∧
    forecast m 3 = [0, 0, 0] :=
  ⟨rfl, rfl, rfl⟩

/-- C2: in the training feature table, `target_volatility` is
`current_volatility` shifted back by `target_shift = 5` rows at full bar
resolution: row `t` holds the volatility of row `t + 5` when that row
exists and is missing for the last 5 rows; the downsampled table then takes
every `window_points`-th row of that already-shifted column. -/
theorem C2_target_shift (flog fsqrt : ℚ → ℚ) (df0 : DFrame) :
    RfregressorConfig.target_shift = 5 ∧
    (getCol (trainFullFrame flog fsqrt df0) "target_volatility").length =
      (getCol (trainFullFrame flog fsqrt df0) "current_volatility").length ∧
    (∀ t, t + 5 < (getCol (trainFullFrame flog fsqrt df0) "current_volatility").length →
      cellAt (getCol (trainFullFrame flog fsqrt df0) "target_volatility") t =
        cellAt (getCol (trainFullFrame flog fsqrt df0) "current_volatility") (t + 5)) ∧
    (∀ t, (getCol (trainFullFrame flog fsqrt df0) "current_volatility").length ≤ t + 5 →
      cellAt (getCol (trainFullFrame flog fsqrt df0) "target_volatility") t = none) ∧
    getCol (calculate_volatility_features flog fsqrt df0).1 "target_volatility" =
      everyNth window_points
        (getCol (trainFullFrame flog fsqrt df0) "target_volatility") := by
  refine ⟨rfl, ?_, ?_, ?_, ?_⟩
  · rw [getCol_train_target, length_pshiftNeg]
  · intro t ht
    rw [getCol_train_target, cellAt_pshiftNeg, if_pos ht]
  · intro t ht
    rw [getCol_train_target, cellAt_pshiftNeg, if_neg (by omega)]
  · simp only [calculate_volatility_features, sampleEvery]
    rw [getCol_mapCols _ _ _ (hasCol_train_target flog fsqrt df0)]

/-- C2 witness at a concrete ten-bar table. -/
theorem C2_target_shift_witness :
    0 + 5 < (getCol (trainFullFrame id id wBars) "current_volatility").length ∧
    cellAt (getCol (trainFullFrame id id wBars) "target_volatility") 0 =
      cellAt (getCol (trainFullFrame id id wBars) "current_volatility") (0 + 5) ∧
    (getCol (trainFullFrame id id wBars) "current_volatility").length ≤ 9 + 5 ∧
    cellAt (getCol (trainFullFrame id id wBars) "target_volatility") 9 = none := by
  have hlen : (getCol (trainFullFrame id id wBars) "current_volatility").length = 10 := by
    rw [getCol_train_of_ne _ _ _ _ (by decide), getCol_inf_curvol, length_vol,
      length_close_fill (show Rect wBars 10 by unfold Rect; decide) (by decide)]
  exact ⟨by omega, (C2_target_shift id id wBars).2.2.1 0 (by omega),
    by omega, (C2_target_shift id id wBars).2.2.2.1 9 (by omega)⟩

/-- C10: every column named in the inference feature list (the lagged
log-returns and volumes, the moving averages, the current volatility and
close) is pointwise identical between the inference frame and the
training-path frame before downsampling, and the inference feature-name
list is the training list with `close` appended last. -/
theorem C10_train_inference_consistency (flog fsqrt : ℚ → ℚ) (df0 : DFrame) :
    (∀ m, m ∈ inferenceFeatureNames →
      getCol (inferenceFrame flog fsqrt df0) m =
        getCol (trainFullFrame flog fsqrt df0) m) ∧
    inferenceFeatureNames = featureNames ++ ["close"] := by
  constructor
  · intro m hm
    refine (getCol_train_of_ne flog fsqrt df0 m ?_).symm
    rw [inferenceFeatureNames_eq] at hm
    fin_cases hm <;> decide
  · rfl

/-- C10 witness at a concrete table and the close column. -/
theorem C10_witness :
    "close" ∈ inferenceFeatureNames ∧
    getCol (inferenceFrame id id wBars) "close" =
      getCol (trainFullFrame id id wBars) "close" :=
  ⟨by decide, (C10_train_inference_consistency id id wBars).1 "close" (by decide)⟩

/-- C3 (amended): for each lag `i` from 1 to 4 — the range hardcoded by the
loop `for i in range(1, 5)`, independent of the configured `n_lags = 5` —
the builder emits `log_return_t-i` equal to the log-return column shifted
back by `i` positions (missing for the first `i` rows) and `volume_t-i`
equal to the volume column shifted back by `i` positions (missing for the
first `i` rows). -/
theorem C3_lag_columns (flog fsqrt : ℚ → ℚ) (df0 : DFrame) (i : Nat)
    (h1 : 1 ≤ i) (h2 : i ≤ 4) :
    lrLagName i ∈ featureNames ∧ volLagName i ∈ featureNames ∧
    (∀ t, i ≤ t →
      t < (getCol (trainFullFrame flog fsqrt df0) "log_returns").length →
      cellAt (getCol (trainFullFrame flog fsqrt df0) (lrLagName i)) t =
        cellAt (getCol (trainFullFrame flog fsqrt df0) "log_returns") (t - i)) ∧
    (∀ t, t < i →
      cellAt (getCol (trainFullFrame flog fsqrt df0) (lrLagName i)) t = none) ∧
    (∀ t, i ≤ t →
      t < (getCol (trainFullFrame flog fsqrt df0) "volume").length →
      cellAt (getCol (trainFullFrame flog fsqrt df0) (volLagName i)) t =
        cellAt (getCol (trainFullFrame flog fsqrt df0) "volume") (t - i)) ∧
    (∀ t, t < i →
      cellAt (getCol (trainFullFrame flog fsqrt df0) (volLagName i)) t = none) := by
  have hlr : getCol (trainFullFrame flog fsqrt df0) "log_returns" =
      logReturns flog (getCol (fillCols df0) "close") := by
    rw [getCol_train_of_ne _ _ _ _ (by decide)]
    exact getCol_inf_log_returns flog fsqrt df0
  have hvm : getCol (trainFullFrame flog fsqrt df0) "volume" =
      getCol (fillCols df0) "volume" := by
    rw [getCol_train_of_ne _ _ _ _ (by decide)]
    exact getCol_inf_volume flog fsqrt df0
  have hl : getCol (trainFullFrame flog fsqrt df0) (lrLagName i) =
      pshift i (logReturns flog (getCol (fillCols df0) "close")) := by
    rw [getCol_train_of_ne _ _ _ _ (by interval_cases i <;> decide)]
    exact getCol_inf_lrLag flog fsqrt df0 i h1 h2
  have hv : getCol (trainFullFrame flog fsqrt df0) (volLagName i) =
      pshift i (getCol (fillCols df0) "volume") := by
    rw [getCol_train_of_ne _ _ _ _ (by interval_cases i <;> decide)]
    exact getCol_inf_volLag flog fsqrt df0 i h1 h2
  refine ⟨?_, ?_, ?_, ?_, ?_, ?_⟩
  · rw [featureNames_eq]
    interval_cases i <;> decide
  · rw [featureNames_eq]
    interval_cases i <;> decide
  · intro t ht1 ht2
    rw [hlr] at ht2 ⊢
    rw [hl, cellAt_pshift, if_pos ⟨ht1, ht2⟩]
  · intro t ht
    rw [hl, cellAt_pshift, if_neg (by omega)]
  · intro t ht1 ht2
    rw [hvm] at ht2 ⊢
    rw [hv, cellAt_pshift, if_pos ⟨ht1, ht2⟩]
  · intro t ht
    rw [hv, cellAt_pshift, if_neg (by omega)]

/-- C3, counterexample to the claim as stated: the configuration sets
`n_lags = 5`, yet the builder emits no lag-5 column — the name list stops
at lag 4 and the built frame has no `log_return_t-5` column. -/
theorem C3_counterexample :
    RfregressorConfig.n_lags = 5 ∧
    lrLagName 5 ∉ featureNames ∧
    volLagName 5 ∉ featureNames ∧
    hasCol (trainFullFrame id id wBars) (lrLagName 5) = false := by
  refine ⟨rfl, by decide, by decide, ?_⟩
  rw [trainFullFrame_eq]
  simp [hasCol_setCol, inferenceFrame, foldl_lagStep, lagStep, lrLagName_five,
    lrLagName_one, lrLagName_two, lrLagName_three, lrLagName_four,
    volLagName_one, volLagName_two, volLagName_three, volLagName_four,
    hasCol_fillCols, wBars, hasCol]

/-- C3 witness: lag 2 at row 0 is missing. -/
theorem C3_witness :
    1 ≤ 2 ∧ 2 ≤ 4 ∧ 0 < 2 ∧
    cellAt (getCol (trainFullFrame id id wBars) (lrLagName 2)) 0 = none :=
  ⟨by decide, by decide, by decide,
    (C3_lag_columns id id wBars 2 (by decide) (by decide)).2.2.2.1 0 (by decide)⟩

/-- C5: the training-path sampler keeps exactly the rows at indices
`0, w, 2w, ...` of every column, its output has exactly `ceil(n / w)` rows
before missing-value removal, and after the removal step every surviving
cell of every kept column (in particular every selected feature and the
target) is non-missing. -/
theorem C5_sampler (f : DFrame) (n w : Nat) (hw : 0 < w) (hr : Rect f n)
    (hne : f ≠ []) :
    nRows (sampleEvery w f) = (n + w - 1) / w ∧
    (∀ m, hasCol f m = true →
      ∀ j, cellAt (getCol (sampleEvery w f) m) j = cellAt (getCol f m) (j * w)) ∧
    (∀ m, hasCol (sampleEvery w f) m = true →
      ∀ x ∈ getCol (dropna (sampleEvery w f)) m, x.isSome = true) := by
  refine ⟨?_, ?_, ?_⟩
  · exact nRows_rect
      (rect_mapCols hr (fun c hc => by rw [length_everyNth w hw, hc]))
      (mapCols_ne_nil _ hne)
  · intro m hm j
    rw [sampleEvery, getCol_mapCols _ _ _ hm, cellAt_everyNth w hw]
  · intro m hm x hx
    exact isSome_dropna _ m hm x hx

/-- C5 witness at a concrete ten-row table and window 3. -/
theorem C5_witness :
    0 < 3 ∧ Rect wBars 10 ∧ wBars ≠ [] ∧
    nRows (sampleEvery 3 wBars) = (10 + 3 - 1) / 3 ∧
    cellAt (getCol (sampleEvery 3 wBars) "close") 1 =
      cellAt (getCol wBars "close") (1 * 3) :=
  ⟨by decide, by unfold Rect; decide, by decide,
    (C5_sampler wBars 10 3 (by decide) (by unfold Rect; decide) (by decide)).1,
    (C5_sampler wBars 10 3 (by decide) (by unfold Rect; decide) (by decide)).2.1
      "close" (by decide) 1⟩

/-- C1 (amended): for every price series and every window `w > 0` the
volatility series has the same length as the input; every position of a
complete block `[b*w, (b+1)*w)` holds one shared value, namely the pandas
sample standard deviation of the log-returns falling inside that block
(that shared value is itself missing when fewer than two of those
log-returns are defined, e.g. in the first block when `w ≤ 2`); every
position of the trailing partial block is missing; and a series shorter
than `w` yields an all-missing output. -/
theorem C1_volatility_blocks (flog fsqrt : ℚ → ℚ) (series : Col) (w : Nat)
    (hw : 0 < w) :
    (calculate_non_overlapping_volatility flog fsqrt series w).length =
      series.length ∧
    (∀ b t, b * w ≤ t → t < (b + 1) * w → (b + 1) * w ≤ series.length →
      cellAt (calculate_non_overlapping_volatility flog fsqrt series w) t =
        seriesStd fsqrt (((logReturns flog series).drop (b * w)).take w)) ∧
    (∀ b t, b * w ≤ t → t < (b + 1) * w → t < series.length →
      series.length < (b + 1) * w →
      cellAt (calculate_non_overlapping_volatility flog fsqrt series w) t =
        none) ∧
    (series.length < w → ∀ t, t < series.length →
      cellAt (calculate_non_overlapping_volatility flog fsqrt series w) t =
        none) := by
  have hlr : (logReturns flog series).length = series.length :=
    length_logReturns flog series
  refine ⟨length_vol flog fsqrt series w, ?_, ?_, ?_⟩
  · intro b t hbt htb hble
    rw [calculate_non_overlapping_volatility,
      cellAt_volBlocks fsqrt w hw _ b t hbt htb (by omega),
      if_pos (by omega)]
  · intro b t hbt htb ht hgt
    rw [calculate_non_overlapping_volatility,
      cellAt_volBlocks fsqrt w hw _ b t hbt htb (by omega),
      if_neg (by omega)]
  · intro hsw t ht
    rw [calculate_non_overlapping_volatility,
      cellAt_volBlocks fsqrt w hw _ 0 t (by omega) (by omega) (by omega),
      if_neg (by omega)]

/-- C1, counterexample to the claim as stated: with `window_points = 2` and
the two-price series `[1, 1]` the single block `[0, 2)` is complete, yet
both of its positions are missing — the sample standard deviation of the
single defined log-return in that block is itself missing (`ddof = 1`) — so
a complete block does not always hold a scalar. -/
theorem C1_counterexample :
    (0 + 1) * 2 ≤ ([some 1, some 1] : Col).length ∧
    calculate_non_overlapping_volatility id id [some 1, some 1] 2 =
      [none, none] := by
  constructor
  · decide
  · simp [calculate_non_overlapping_volatility, volBlocks, logReturns, pshift,
      cellDiv, seriesStd]

/-- C1 witness at the ten-bar close series with window 5. -/
theorem C1_witness :
    0 < 5 ∧
    (calculate_non_overlapping_volatility id id (getCol wBars "close") 5).length =
      (getCol wBars "close").length ∧
    cellAt (calculate_non_overlapping_volatility id id (getCol wBars "close") 5) 0 =
      seriesStd id (((logReturns id (getCol wBars "close")).drop (0 * 5)).take 5) :=
  ⟨by decide,
    (C1_volatility_blocks id id (getCol wBars "close") 5 (by decide)).1,
    (C1_volatility_blocks id id (getCol wBars "close") 5 (by decide)).2.1 0 0
      (by decide) (by decide) (by decide)⟩

/-- Every inference feature column exists in the built inference frame. -/
theorem hasCol_inf_feature (flog fsqrt : ℚ → ℚ) (df0 : DFrame) (m : String)
    (hm : m ∈ inferenceFeatureNames) (hc : hasCol df0 "close" = true) :
    hasCol (inferenceFrame flog fsqrt df0) m = true := by
  rw [inferenceFeatureNames_eq] at hm
  fin_cases hm <;>
    simp [inferenceFrame, foldl_lagStep, lagStep, hasCol_setCol,
      hasCol_fillCols, lrLagName_one, lrLagName_two, lrLagName_three,
      lrLagName_four, volLagName_one, volLagName_two, volLagName_three,
      volLagName_four, hc]

/-- C6: inference computes the features at full bar resolution (one
prediction per input row, index aligned), builds no target column, and the
frame handed to the estimator has every remaining missing cell replaced by
zero (all cells defined; defined cells kept as they are). -/
theorem C6_inference (flog fsqrt : ℚ → ℚ) (P : List Cell → ℚ) (df0 : DFrame)
    {n : Nat} (hr : Rect df0 n) (hc : hasCol df0 "close" = true)
    (hv : hasCol df0 "volume" = true) :
    (inference flog fsqrt P df0).length = n ∧
    hasCol (inferencePredictInput flog fsqrt df0) "target_volatility" = false ∧
    (∀ p ∈ inferencePredictInput flog fsqrt df0, ∀ x ∈ p.2, x.isSome = true) ∧
    (∀ m, m ∈ inferenceFeatureNames → ∀ t,
      cellAt (getCol (inferencePredictInput flog fsqrt df0) m) t =
        if t < n then
          some ((cellAt (getCol (inferenceFrame flog fsqrt df0) m) t).getD 0)
        else none) := by
  have hlag1 : (getCol (inferenceFrame flog fsqrt df0) "log_return_t-1").length
      = n := by
    rw [← lrLagName_one,
      getCol_inf_lrLag flog fsqrt df0 1 (by decide) (by decide), length_pshift,
      length_logReturns, length_close_fill hr hc]
  have hfeat : ∀ m, m ∈ inferenceFeatureNames →
      (getCol (inferenceFrame flog fsqrt df0) m).length = n := fun m hm =>
    length_getCol_rect (rect_inferenceFrame flog fsqrt hr hc hv)
      (hasCol_inf_feature flog fsqrt df0 m hm hc)
  refine ⟨?_, ?_, ?_, ?_⟩
  · rw [inference, List.length_map, length_frameRows, inferencePredictInput,
      nRows_fillnaZero, inferenceFeatureNames_eq, nRows_selectCols, hlag1]
  · rw [inferencePredictInput, fillnaZero, hasCol_mapCols, hasCol_selectCols]
    decide
  · intro p hp x hx
    rw [inferencePredictInput, fillnaZero] at hp
    obtain ⟨q, hq, rfl⟩ := List.mem_map.mp hp
    obtain ⟨y, hy, rfl⟩ := List.mem_map.mp hx
    rfl
  · intro m hm t
    rw [inferencePredictInput, fillnaZero,
      getCol_mapCols _ _ _ (by rw [hasCol_selectCols]; simpa using hm),
      getCol_selectCols _ _ _ hm, cellAt_fillZero, hfeat m hm]

/-- C6 witness at a concrete ten-bar table. -/
theorem C6_witness :
    Rect wBars 10 ∧ hasCol wBars "close" = true ∧
    hasCol wBars "volume" = true ∧
    (inference id id (fun _ => 0) wBars).length = 10 :=
  ⟨by unfold Rect; decide, by decide, by decide,
    (C6_inference id id (fun _ => 0) wBars (by unfold Rect; decide) (by decide)
      (by decide)).1⟩

theorem nRows_dropna (f : DFrame) (hne : f ≠ []) :
    nRows (dropna f) =
      ((List.range (nRows f)).filter (fun t => rowOk f t)).length := by
  cases f with
  | nil => exact absurd rfl hne
  | cons p f => simp [dropna, mapCols, nRows]

theorem hasCol_train_log_returns (flog fsqrt : ℚ → ℚ) (df0 : DFrame) :
    hasCol (trainFullFrame flog fsqrt df0) "log_returns" = true := by
  rw [trainFullFrame_eq, hasCol_setCol]
  simp [hasCol_inf_log_returns]

theorem hasCol_train_feature (flog fsqrt : ℚ → ℚ) (df0 : DFrame) (m : String)
    (hm : m ∈ inferenceFeatureNames) (hc : hasCol df0 "close" = true) :
    hasCol (trainFullFrame flog fsqrt df0) m = true := by
  rw [trainFullFrame_eq, hasCol_setCol]
  split_ifs <;> simp [hasCol_inf_feature flog fsqrt df0 m hm hc]

theorem featureNamesClose_eq :
    featureNames ++ ["close"] = ["log_return_t-1", "volume_t-1",
      "log_return_t-2", "volume_t-2", "log_return_t-3", "volume_t-3",
      "log_return_t-4", "volume_t-4", "SMA_10", "EMA_10",
      "current_volatility", "close"] := rfl

theorem calc_features_fst (flog fsqrt : ℚ → ℚ) (df0 : DFrame) :
    (calculate_volatility_features flog fsqrt df0).1 =
      sampleEvery window_points (trainFullFrame flog fsqrt df0) := by
  simp only [calculate_volatility_features]

theorem train_fit_data_eq (flog fsqrt : ℚ → ℚ) (df0 : DFrame) :
    train_fit_data flog fsqrt df0 =
      (selectCols
        (dropna (sampleEvery window_points (trainFullFrame flog fsqrt df0)))
        (featureNames ++ ["close"]),
       getCol
        (dropna (sampleEvery window_points (trainFullFrame flog fsqrt df0)))
        "target_volatility") := by
  simp only [train_fit_data, calculate_volatility_features]

theorem train_zero_rows (flog fsqrt : ℚ → ℚ) (df0 : DFrame) {n : Nat}
    (hr : Rect df0 n) (hc : hasCol df0 "close" = true)
    (hv : hasCol df0 "volume" = true) (hn : n < window_points) :
    nRows (dropna (calculate_volatility_features flog fsqrt df0).1) = 0 ∧
    nRows (train_fit_data flog fsqrt df0).1 = 0 ∧
    (train_fit_data flog fsqrt df0).2 = [] := by
  have hfull : Rect (trainFullFrame flog fsqrt df0) n :=
    rect_trainFullFrame flog fsqrt hr hc hv
  have hfne := trainFullFrame_ne_nil flog fsqrt df0
  have hsrect : Rect (sampleEvery window_points (trainFullFrame flog fsqrt df0))
      ((n + 5 - 1) / 5) :=
    rect_mapCols hfull (fun c hc2 => by
      rw [show window_points = 5 from rfl, length_everyNth 5 (by omega), hc2])
  have hsne : sampleEvery window_points (trainFullFrame flog fsqrt df0) ≠ [] :=
    mapCols_ne_nil _ hfne
  have hsrows : nRows (sampleEvery window_points (trainFullFrame flog fsqrt df0))
      = (n + 5 - 1) / 5 := nRows_rect hsrect hsne
  have hkeep : (List.range (nRows (sampleEvery window_points
        (trainFullFrame flog fsqrt df0)))).filter
      (fun t => rowOk (sampleEvery window_points (trainFullFrame flog fsqrt df0)) t)
      = [] := by
    rcases Nat.eq_zero_or_pos n with hn0 | hn1
    · rw [hsrows, hn0]
      simp
    · have h1 : (n + 5 - 1) / 5 = 1 := by
        rw [show window_points = 5 from rfl] at hn
        omega
      rw [hsrows, h1, show List.range 1 = [0] by decide]
      have hrow : rowOk (sampleEvery window_points (trainFullFrame flog fsqrt df0))
          0 = false := by
        apply rowOk_false _ _ "log_returns"
        · rw [sampleEvery, hasCol_mapCols]
          exact hasCol_train_log_returns flog fsqrt df0
        · rw [sampleEvery,
            getCol_mapCols _ _ _ (hasCol_train_log_returns flog fsqrt df0)]
          have h0 := cellAt_everyNth window_points (by decide)
            (getCol (trainFullFrame flog fsqrt df0) "log_returns") 0
          rw [Nat.zero_mul] at h0
          rw [h0]
          have hlr : getCol (trainFullFrame flog fsqrt df0) "log_returns" =
              logReturns flog (getCol (fillCols df0) "close") := by
            rw [getCol_train_of_ne _ _ _ _ (by decide)]
            exact getCol_inf_log_returns flog fsqrt df0
          rw [hlr]
          apply cellAt_logReturns_zero
          have hlen : (getCol (fillCols df0) "close").length = n :=
            length_close_fill hr hc
          intro hnil
          rw [hnil] at hlen
          simp at hlen
          omega
      simp [hrow]
  have hcl : ∀ m, hasCol (sampleEvery window_points
        (trainFullFrame flog fsqrt df0)) m = true →
      getCol (dropna (sampleEvery window_points (trainFullFrame flog fsqrt df0)))
        m = [] := by
    intro m hm
    rw [getCol_dropna _ _ hm, hkeep]
    rfl
  refine ⟨?_, ?_, ?_⟩
  · rw [calc_features_fst, nRows_dropna _ hsne, hkeep]
    rfl
  · rw [train_fit_data_eq, featureNamesClose_eq, nRows_selectCols,
      hcl "log_return_t-1" (by
        rw [sampleEvery, hasCol_mapCols]
        exact hasCol_train_feature flog fsqrt df0 "log_return_t-1" (by decide) hc)]
    rfl
  · exact (show (train_fit_data flog fsqrt df0).2 =
        getCol
          (dropna (sampleEvery window_points (trainFullFrame flog fsqrt df0)))
          "target_volatility" by rw [train_fit_data_eq]).trans
      (hcl "target_volatility" (by
        rw [sampleEvery, hasCol_mapCols]
        exact hasCol_train_target flog fsqrt df0))

/-- C4 (amended): `train` contains no insufficient-data check: whenever the
input has fewer bars than one `window_points`, sampling followed by
missing-value removal leaves zero usable rows, and instead of a prior
InsufficientData failure being raised the `(features, target)` pair handed
to the estimator's `fit` call is simply empty — any failure arises inside
the external estimator. -/
theorem C4_no_insufficient_data_check (flog fsqrt : ℚ → ℚ) (df0 : DFrame)
    {n : Nat} (hr : Rect df0 n) (hc : hasCol df0 "close" = true)
    (hv : hasCol df0 "volume" = true) (hn : n < window_points) :
    nRows (dropna (calculate_volatility_features flog fsqrt df0).1) = 0 ∧
    nRows (train_fit_data flog fsqrt df0).1 = 0 ∧
    (train_fit_data flog fsqrt df0).2 = [] :=
  train_zero_rows flog fsqrt df0 hr hc hv hn

/-- C4, counterexample to the claim as stated: with three bars (fewer than
one five-bar window) no InsufficientData condition interrupts `train`
before the estimator — the `fit` call is reached with an empty features
table and an empty target. -/
theorem C4_counterexample :
    nRows (train_fit_data id id bars3).1 = 0 ∧
    (train_fit_data id id bars3).2 = [] :=
  (train_zero_rows id id bars3 (show Rect bars3 3 by unfold Rect; decide)
    (by decide) (by decide) (by decide)).2

/-- C4 witness at the three-bar table. -/
theorem C4_witness :
    Rect bars3 3 ∧ hasCol bars3 "close" = true ∧
    hasCol bars3 "volume" = true ∧ 3 < window_points ∧
    nRows (dropna (calculate_volatility_features id id bars3).1) = 0 :=
  ⟨by unfold Rect; decide, by decide, by decide, by decide,
    (C4_no_insufficient_data_check id id bars3 (show Rect bars3 3 by unfold Rect; decide)
      (by decide) (by decide) (by decide)).1⟩

/-! Store lemmas for the frame-mutation claims. -/

theorem readF_append_left (s l : Store) (r : Nat) (h : r < s.length) :
    readF (s ++ l) r = readF s r := by
  simp [readF, List.getD_eq_getElem?_getD, List.getElem?_append, h]

theorem readF_append_self (s : Store) (f : DFrame) :
    readF (s ++ [f]) s.length = f := by
  simp [readF, List.getD_eq_getElem?_getD, List.getElem?_append]

theorem writeF_append_self (s : Store) (f g : DFrame) :
    writeF (s ++ [f]) s.length g = s ++ [g] := by
  simp [writeF, List.set_append]

theorem lagStepS_append (u : Store) (f : DFrame) (i : Nat) :
    lagStepS u.length (u ++ [f]) i = u ++ [lagStep f i] := by
  simp only [lagStepS, lagStep, readF_append_self, writeF_append_self]

theorem foldl_lagStepS_append (u : Store) (l : List Nat) :
    ∀ f : DFrame,
      l.foldl (lagStepS u.length) (u ++ [f]) = u ++ [l.foldl lagStep f] := by
  induction l with
  | nil => intro f; rfl
  | cons i l ih =>
      intro f
      rw [List.foldl_cons, List.foldl_cons, lagStepS_append, ih]

theorem calcFeaturesS_spec (flog fsqrt : ℚ → ℚ) (s0 : Store) (inRef : Nat) :
    calcFeaturesS flog fsqrt s0 inRef =
      ((((s0 ++ [readF s0 inRef]) ++
          [trainFullFrame flog fsqrt (readF s0 inRef)]).length, featureNames),
        ((s0 ++ [readF s0 inRef]) ++
          [trainFullFrame flog fsqrt (readF s0 inRef)]) ++
          [sampleEvery window_points
            (trainFullFrame flog fsqrt (readF s0 inRef))]) := by
  simp only [calcFeaturesS, allocF, readF_append_self, writeF_append_self,
    foldl_lagStepS_append, trainFullFrame]

theorem inferenceS_spec (flog fsqrt : ℚ → ℚ) (P : List Cell → ℚ) (s0 : Store)
    (inRef : Nat) :
    inferenceS flog fsqrt P s0 inRef =
      ((frameRows (inferencePredictInput flog fsqrt (readF s0 inRef))).map P,
        ((s0 ++ [readF s0 inRef]) ++
          [inferenceFrame flog fsqrt (readF s0 inRef)]) ++
          [inferencePredictInput flog fsqrt (readF s0 inRef)]) := by
  simp only [inferenceS, allocF, readF_append_self, writeF_append_self,
    foldl_lagStepS_append, inferenceFrame, inferencePredictInput]

theorem trainS_spec (flog fsqrt : ℚ → ℚ) (s0 : Store) (inRef : Nat) :
    trainS flog fsqrt s0 inRef =
      ((selectCols
          (dropna (sampleEvery window_points
            (trainFullFrame flog fsqrt (readF s0 inRef))))
          (featureNames ++ ["close"]),
        getCol
          (dropna (sampleEvery window_points
            (trainFullFrame flog fsqrt (readF s0 inRef))))
          "target_volatility"),
        (((s0 ++ [readF s0 inRef]) ++
          [trainFullFrame flog fsqrt (readF s0 inRef)]) ++
          [sampleEvery window_points
            (trainFullFrame flog fsqrt (readF s0 inRef))]) ++
          [dropna (sampleEvery window_points
            (trainFullFrame flog fsqrt (readF s0 inRef)))]) := by
  simp only [trainS, calcFeaturesS_spec, allocF, readF_append_self]

theorem trainS_store (flog fsqrt : ℚ → ℚ) (s0 : Store) (inRef : Nat) :
    (trainS flog fsqrt s0 inRef).2 =
      (((s0 ++ [readF s0 inRef]) ++
        [trainFullFrame flog fsqrt (readF s0 inRef)]) ++
        [sampleEvery window_points
          (trainFullFrame flog fsqrt (readF s0 inRef))]) ++
        [dropna (sampleEvery window_points
          (trainFullFrame flog fsqrt (readF s0 inRef)))] := by
  rw [trainS_spec]

theorem inferenceS_store (flog fsqrt : ℚ → ℚ) (P : List Cell → ℚ) (s0 : Store)
    (inRef : Nat) :
    (inferenceS flog fsqrt P s0 inRef).2 =
      ((s0 ++ [readF s0 inRef]) ++
        [inferenceFrame flog fsqrt (readF s0 inRef)]) ++
        [inferencePredictInput flog fsqrt (readF s0 inRef)] := by
  rw [inferenceS_spec]

theorem calcFeaturesS_out (flog fsqrt : ℚ → ℚ) (s0 : Store) (inRef : Nat) :
    readF (calcFeaturesS flog fsqrt s0 inRef).2
        (calcFeaturesS flog fsqrt s0 inRef).1.1 =
      sampleEvery window_points (trainFullFrame flog fsqrt (readF s0 inRef)) := by
  simp only [calcFeaturesS_spec, readF_append_self]

theorem calcFeaturesS_names (flog fsqrt : ℚ → ℚ) (s0 : Store) (inRef : Nat) :
    (calcFeaturesS flog fsqrt s0 inRef).1.2 = featureNames := by
  simp only [calcFeaturesS_spec]

theorem calcFeaturesS_inref (flog fsqrt : ℚ → ℚ) (s0 : Store) (inRef : Nat)
    (h : inRef < s0.length) :
    readF (calcFeaturesS flog fsqrt s0 inRef).2 inRef = readF s0 inRef := by
  simp only [calcFeaturesS_spec]
  rw [readF_append_left _ _ _ (by simp only [List.length_append,
      List.length_cons, List.length_nil]; omega),
    readF_append_left _ _ _ (by simp only [List.length_append,
      List.length_cons, List.length_nil]; omega),
    readF_append_left _ _ _ h]

/-- C9: both `train` and `inference` leave the caller's input frame
unchanged: every frame operation happens on internal copies, so after
either store-level run the frame the input reference points to is the one
it pointed to before. -/
theorem C9_input_unchanged (flog fsqrt : ℚ → ℚ) (P : List Cell → ℚ)
    (s0 : Store) (inRef : Nat) (h : inRef < s0.length) :
    readF (trainS flog fsqrt s0 inRef).2 inRef = readF s0 inRef ∧
    readF (inferenceS flog fsqrt P s0 inRef).2 inRef = readF s0 inRef := by
  constructor
  · rw [trainS_store,
      readF_append_left _ _ _ (by simp only [List.length_append,
        List.length_cons, List.length_nil]; omega),
      readF_append_left _ _ _ (by simp only [List.length_append,
        List.length_cons, List.length_nil]; omega),
      readF_append_left _ _ _ (by simp only [List.length_append,
        List.length_cons, List.length_nil]; omega),
      readF_append_left _ _ _ h]
  · rw [inferenceS_store,
      readF_append_left _ _ _ (by simp only [List.length_append,
        List.length_cons, List.length_nil]; omega),
      readF_append_left _ _ _ (by simp only [List.length_append,
        List.length_cons, List.length_nil]; omega),
      readF_append_left _ _ _ h]

/-- C9 witness at a one-frame store. -/
theorem C9_witness :
    0 < ([wBars] : Store).length ∧
    readF (trainS id id [wBars] 0).2 0 = readF [wBars] 0 ∧
    readF (inferenceS id id (fun _ => 0) [wBars] 0).2 0 = readF [wBars] 0 :=
  ⟨by decide, (C9_input_unchanged id id (fun _ => 0) [wBars] 0 (by decide)).1,
    (C9_input_unchanged id id (fun _ => 0) [wBars] 0 (by decide)).2⟩

/-- C8: running the feature-building computation twice in sequence on the
same input reference yields an identical output frame and an identical
feature-name list — the first run left no state behind that the second
run could observe. -/
theorem C8_feature_build_deterministic (flog fsqrt : ℚ → ℚ) (s0 : Store)
    (inRef : Nat) (h : inRef < s0.length) :
    readF (calcFeaturesS flog fsqrt s0 inRef).2
        (calcFeaturesS flog fsqrt s0 inRef).1.1 =
      readF (calcFeaturesS flog fsqrt
          (calcFeaturesS flog fsqrt s0 inRef).2 inRef).2
        (calcFeaturesS flog fsqrt
          (calcFeaturesS flog fsqrt s0 inRef).2 inRef).1.1 ∧
    (calcFeaturesS flog fsqrt s0 inRef).1.2 =
      (calcFeaturesS flog fsqrt
        (calcFeaturesS flog fsqrt s0 inRef).2 inRef).1.2 := by
  constructor
  · rw [calcFeaturesS_out, calcFeaturesS_out, calcFeaturesS_inref _ _ _ _ h]
  · rw [calcFeaturesS_names, calcFeaturesS_names]

/-- C8 witness at a one-frame store. -/
theorem C8_witness :
    0 < ([wBars] : Store).length ∧
    readF (calcFeaturesS id id [wBars] 0).2 (calcFeaturesS id id [wBars] 0).1.1 =
      readF (calcFeaturesS id id (calcFeaturesS id id [wBars] 0).2 0).2
        (calcFeaturesS id id (calcFeaturesS id id [wBars] 0).2 0).1.1 ∧
    (calcFeaturesS id id [wBars] 0).1.2 =
      (calcFeaturesS id id (calcFeaturesS id id [wBars] 0).2 0).1.2 :=
  ⟨by decide, (C8_feature_build_deterministic id id [wBars] 0 (by decide)).1,
    (C8_feature_build_deterministic id id [wBars] 0 (by decide)).2⟩
